import Mathlib

/-!
Verification development for the sharknado document store: a shallow
embedding of its storage engine (in-memory index plus append-only WAL),
query evaluator and session protocol, with theorems about the replay,
matching, parsing and authentication behaviour of the code.

Strings are modelled as lists of characters (`Str`), so that the Rust
string primitives used by the source (`split`, `splitn`, `trim`,
`contains`, `trim_matches`) can be embedded as structurally recursive
functions and reasoned about directly.  `HashMap` is modelled as an
association list with replace-on-insert semantics; the in-memory index is
`table name -> key -> document` as in `engine.rs`.
-/

set_option maxRecDepth 8192

abbrev Str : Type := List Char

def strOf (s : String) : Str := s.data

/-- Rust `char::is_whitespace`, restricted to the ASCII whitespace that can
occur in the line-oriented protocol. -/
def isWsChar (c : Char) : Bool := c = ' ' || c = '\t' || c = '\n' || c = '\r'

/-- Rust `str::trim`. -/
def trimStr (cs : Str) : Str :=
  ((cs.dropWhile isWsChar).reverse.dropWhile isWsChar).reverse

/-- Rust `str::to_lowercase` (the command verbs are ASCII). -/
def lowerStr (cs : Str) : Str := cs.map Char.toLower

/-- Rust `str::trim_matches(c)`: strips every leading and trailing
occurrence of `m`. -/
def trimMatchesChar (m : Char) (cs : Str) : Str :=
  ((cs.dropWhile (· = m)).reverse.dropWhile (· = m)).reverse

/-- Rust `str::split(sep: char)`: splits on every occurrence of `sep`;
splitting the empty string yields one empty field. -/
def splitOnChar (sep : Char) : Str → List Str
  | [] => [[]]
  | c :: rest =>
    if c = sep then [] :: splitOnChar sep rest
    else
      match splitOnChar sep rest with
      | [] => [[c]]
      | r :: rs => (c :: r) :: rs

/-- The text before and after the first occurrence of `sep`, if any. -/
def splitFirstChar (sep : Char) : Str → Option (Str × Str)
  | [] => none
  | c :: rest =>
    if c = sep then some ([], rest)
    else (splitFirstChar sep rest).map (fun p => (c :: p.1, p.2))

/-- Rust `str::splitn(n, sep: char)`: at most `n` fields, the last field
holding the unsplit remainder. -/
def splitnChar (n : Nat) (sep : Char) (cs : Str) : List Str :=
  match n with
  | 0 => []
  | Nat.succ m =>
    if m = 0 then [cs]
    else
      match splitFirstChar sep cs with
      | none => [cs]
      | some (a, b) => a :: splitnChar m sep b

/-- The text before and after the first occurrence of the substring `pat`,
if any. -/
def splitFirstSub (pat : Str) : Str → Option (Str × Str)
  | [] => if pat.isPrefixOf ([] : Str) then some ([], []) else none
  | c :: rest =>
    if pat.isPrefixOf (c :: rest) then some ([], (c :: rest).drop pat.length)
    else (splitFirstSub pat rest).map (fun p => (c :: p.1, p.2))

/-- Rust `str::contains(pat: &str)`. -/
def containsSub (pat : Str) (cs : Str) : Bool := (splitFirstSub pat cs).isSome

/-- Rust `str::splitn(2, pat: &str)`. -/
def splitn2Sub (pat : Str) (cs : Str) : List Str :=
  match splitFirstSub pat cs with
  | some (a, b) => [a, b]
  | none => [cs]

/-- Rust `str::split(pat: &str)` (fuelled; the fuel is always sufficient
because each step consumes at least one character of a nonempty pattern). -/
def splitSubFuel (pat : Str) : Nat → Str → List Str
  | 0, cs => [cs]
  | Nat.succ fuel, cs =>
    match splitFirstSub pat cs with
    | none => [cs]
    | some (a, b) => a :: splitSubFuel pat fuel b

/-- Rust `str::split(pat: &str)`. -/
def splitSub (pat : Str) (cs : Str) : List Str :=
  splitSubFuel pat (cs.length + 1) cs

/-- `HashMap::get` on the association-list model of `HashMap`. -/
def lookupA {β : Type} (m : List (Str × β)) (k : Str) : Option β :=
  match m with
  | [] => none
  | (k', v) :: rest => if k' = k then some v else lookupA rest k

/-- `HashMap::insert`: replaces the value when the key is present, appends
otherwise (maps built through `insertA`/`eraseA` never hold duplicate
keys, matching `HashMap`). -/
def insertA {β : Type} : List (Str × β) → Str → β → List (Str × β)
  | [], k, v => [(k, v)]
  | (k', v') :: rest, k, v =>
    if k' = k then (k, v) :: rest else (k', v') :: insertA rest k v

/-- `HashMap::remove`. -/
def eraseA {β : Type} (m : List (Str × β)) (k : Str) : List (Str × β) :=
  m.filter (fun p => p.1 ≠ k)

theorem lookupA_insertA_self {β : Type} (m : List (Str × β)) (k : Str) (v : β) :
    lookupA (insertA m k v) k = some v := by
  induction m with
  | nil => simp [insertA, lookupA]
  | cons p rest ih =>
    rcases p with ⟨k', v'⟩
    by_cases hk : k' = k
    · simp [insertA, hk, lookupA]
    · simpa [insertA, hk, lookupA] using ih

theorem lookupA_insertA_ne {β : Type} (m : List (Str × β)) (k k' : Str) (v : β)
    (h : k' ≠ k) : lookupA (insertA m k v) k' = lookupA m k' := by
  have hne : ¬ (k = k') := fun e => h e.symm
  induction m with
  | nil => simp [insertA, lookupA, hne]
  | cons p rest ih =>
    rcases p with ⟨k0, v0⟩
    by_cases hk : k0 = k
    · subst hk
      simp [insertA, lookupA, hne]
    · by_cases hk' : k0 = k'
      · simp [insertA, hk, lookupA, hk', h]
      · simpa [insertA, hk, lookupA, hk'] using ih

theorem lookupA_eraseA_self {β : Type} (m : List (Str × β)) (k : Str) :
    lookupA (eraseA m k) k = none := by
  induction m with
  | nil => simp [eraseA, lookupA]
  | cons p rest ih =>
    rcases p with ⟨k0, v0⟩
    by_cases hk : k0 = k
    · simpa [eraseA, hk] using ih
    · simpa [eraseA, hk, lookupA, List.filter] using ih

theorem lookupA_eraseA_ne {β : Type} (m : List (Str × β)) (k k' : Str)
    (h : k' ≠ k) : lookupA (eraseA m k) k' = lookupA m k' := by
  induction m with
  | nil => simp [eraseA, lookupA]
  | cons p rest ih =>
    rcases p with ⟨k0, v0⟩
    by_cases hk : k0 = k
    · subst hk
      have hne : ¬ (k0 = k') := fun e => h (e.symm)
      simpa [eraseA, lookupA, hne, List.filter] using ih
    · by_cases hk' : k0 = k'
      · simp [eraseA, hk, lookupA, hk', h, List.filter]
      · simpa [eraseA, hk, lookupA, hk', List.filter] using ih

theorem splitOnChar_no_sep (sep : Char) (cs : Str) (h : sep ∉ cs) :
    splitOnChar sep cs = [cs] := by
  induction cs with
  | nil => rfl
  | cons c rest ih =>
    have hc : ¬ (c = sep) := fun e => h (e ▸ List.mem_cons_self c rest)
    have hrest : sep ∉ rest := fun m => h (List.mem_cons_of_mem c m)
    simp [splitOnChar, hc, ih hrest]

theorem splitOnChar_append_sep (sep : Char) (a d : Str) (h : sep ∉ a) :
    splitOnChar sep (a ++ sep :: d) = a :: splitOnChar sep d := by
  induction a with
  | nil => simp [splitOnChar]
  | cons c rest ih =>
    have hc : ¬ (c = sep) := fun e => h (e ▸ List.mem_cons_self c rest)
    have hrest : sep ∉ rest := fun m => h (List.mem_cons_of_mem c m)
    have ih' := ih hrest
    simp only [List.cons_append, splitOnChar, hc, if_false]
    rw [show splitOnChar sep (rest.append (sep :: d)) = rest :: splitOnChar sep d from ih']

theorem splitOnChar_ne_nil (sep : Char) (cs : Str) : splitOnChar sep cs ≠ [] := by
  cases cs with
  | nil => simp [splitOnChar]
  | cons c rest =>
    by_cases hc : c = sep
    · simp [splitOnChar, hc]
    · simp only [splitOnChar, hc, if_neg hc]
      cases hsp : splitOnChar sep rest with
      | nil => simp
      | cons r rs => simp

theorem mem_splitOnChar_no_sep (sep : Char) (cs : Str) :
    ∀ x ∈ splitOnChar sep cs, sep ∉ x := by
  induction cs with
  | nil =>
    intro x hx hmem
    simp [splitOnChar] at hx
    subst hx
    simp at hmem
  | cons c rest ih =>
    intro x hx hmem
    by_cases hc : c = sep
    · rw [splitOnChar, if_pos hc] at hx
      rcases List.mem_cons.mp hx with h1 | h1
      · subst h1
        simp at hmem
      · exact ih x h1 hmem
    · rw [splitOnChar, if_neg hc] at hx
      cases hsp : splitOnChar sep rest with
      | nil => exact absurd hsp (splitOnChar_ne_nil sep rest)
      | cons r rs =>
        rw [hsp] at hx
        rcases List.mem_cons.mp hx with h1 | h1
        · subst h1
          rcases List.mem_cons.mp hmem with he | he
          · exact hc he.symm
          · exact ih r (hsp ▸ List.mem_cons_self r rs) he
        · exact ih x (hsp ▸ List.mem_cons_of_mem r h1) hmem

/-- The JSON value model (`serde_json::Value`): objects are ordered field
lists, numbers are modelled as exact rationals (every finite `f64` is a
rational; `f64` rounding is abstracted away). -/
inductive Json : Type where
  | null : Json
  | bool : Bool → Json
  | num : Rat → Json
  | str : Str → Json
  | arr : List Json → Json
  | obj : List (Str × Json) → Json

def lbraceChar : Char := Char.ofNat 123

def rbraceChar : Char := Char.ofNat 125

def isDigitChar (c : Char) : Bool := '0' ≤ c && c ≤ '9'

def digitVal (c : Char) : Nat := c.toNat - 48

def readDigits (cs : Str) : Str × Str :=
  (cs.takeWhile isDigitChar, cs.dropWhile isDigitChar)

def digitsToNat (ds : Str) : Nat := ds.foldl (fun a c => a * 10 + digitVal c) 0

def intToStr (i : Int) : Str :=
  if i < 0 then '-' :: Nat.toDigits 10 i.natAbs else Nat.toDigits 10 i.natAbs

def pow10 (k : Nat) : Nat := 10 ^ k

/-- The least exponent `k ≤ 64` with `den ∣ 10^k`, when one exists (it
always does for denominators of finite `f64` values, which are powers of
two below `2^64`). -/
def findDenExp (den : Nat) : Option Nat :=
  (List.range 65).find? (fun k => pow10 k % den = 0)

def padLeftZeros (k : Nat) (ds : Str) : Str :=
  List.replicate (k - ds.length) '0' ++ ds

/-- Decimal rendering of a rational, value-preserving for every rational
whose denominator divides a power of ten (all finite `f64` values);
models how `serde_json` prints numbers, up to choice of decimal digits. -/
def ratToStr (q : Rat) : Str :=
  let sign : Str := if q.num < 0 then ['-'] else []
  let n : Nat := q.num.natAbs
  if q.den = 1 then sign ++ Nat.toDigits 10 n
  else
    match findDenExp q.den with
    | some k =>
      let scaled : Nat := n * pow10 k / q.den
      sign ++ Nat.toDigits 10 (scaled / pow10 k) ++
        '.' :: padLeftZeros k (Nat.toDigits 10 (scaled % pow10 k))
    | none => sign ++ Nat.toDigits 10 n

/-- JSON string escaping as `serde_json` performs it (the control
characters relevant to this protocol). -/
def escChar (c : Char) : Str :=
  if c = '"' then ['\\', '"']
  else if c = '\\' then ['\\', '\\']
  else if c = '\n' then ['\\', 'n']
  else if c = '\t' then ['\\', 't']
  else if c = '\r' then ['\\', 'r']
  else [c]

def escStr (s : Str) : Str := '"' :: (s.map escChar).flatten ++ ['"']

mutual

/-- `serde_json::Value::to_string` (compact form, as the engine calls it
via `values.to_string()`). -/
def jsonToString : Json → Str
  | .null => strOf "null"
  | .bool true => strOf "true"
  | .bool false => strOf "false"
  | .num q => ratToStr q
  | .str s => escStr s
  | .arr xs => '[' :: jsonArrToString xs ++ [']']
  | .obj fs => lbraceChar :: jsonObjToString fs ++ [rbraceChar]

def jsonArrToString : List Json → Str
  | [] => []
  | [x] => jsonToString x
  | x :: y :: rest => jsonToString x ++ ',' :: jsonArrToString (y :: rest)

def jsonObjToString : List (Str × Json) → Str
  | [] => []
  | [(k, v)] => escStr k ++ ':' :: jsonToString v
  | (k, v) :: p :: rest => escStr k ++ ':' :: jsonToString v ++ ',' :: jsonObjToString (p :: rest)

end

def skipWs (cs : Str) : Str := cs.dropWhile isWsChar

/-- Body of a JSON string literal after the opening quote: returns the
unescaped contents and the remainder after the closing quote. -/
def parseJsonStrBody : Str → Option (Str × Str)
  | [] => none
  | '"' :: r => some ([], r)
  | '\\' :: e :: r =>
    let c? : Option Char :=
      if e = '"' then some '"'
      else if e = '\\' then some '\\'
      else if e = 'n' then some '\n'
      else if e = 't' then some '\t'
      else if e = 'r' then some '\r'
      else if e = '/' then some '/'
      else none
    match c? with
    | some c => (parseJsonStrBody r).map (fun p => (c :: p.1, p.2))
    | none => none
  | c :: r => (parseJsonStrBody r).map (fun p => (c :: p.1, p.2))

/-- A JSON number literal: `-? digits ('.' digits+)?` (the exponent form
and the leading-zero restriction of full JSON are not exercised by this
development). -/
def parseJsonNumber (cs : Str) : Option (Rat × Str) :=
  let signed : Bool × Str := match cs with | '-' :: r => (true, r) | _ => (false, cs)
  let ip := readDigits signed.2
  match ip.2 with
  | '.' :: r =>
    let fp := readDigits r
    if ip.1 = [] ∨ fp.1 = [] then none
    else
      let mant : Rat := (digitsToNat (ip.1 ++ fp.1) : Rat) / (pow10 fp.1.length : Rat)
      some (if signed.1 then -mant else mant, fp.2)
  | _ =>
    if ip.1 = [] then none
    else
      let mant : Rat := (digitsToNat ip.1 : Rat)
      some (if signed.1 then -mant else mant, ip.2)

mutual

/-- `serde_json::from_str`, modelled as a fuelled recursive-descent parser
over the value fragment the store round-trips. -/
def parseJsonVal : Nat → Str → Option (Json × Str)
  | 0, _ => none
  | Nat.succ fuel, cs =>
    match skipWs cs with
    | [] => none
    | c :: rest =>
      if c = 'n' then
        if (strOf "ull").isPrefixOf rest then some (.null, rest.drop 3) else none
      else if c = 't' then
        if (strOf "rue").isPrefixOf rest then some (.bool true, rest.drop 3) else none
      else if c = 'f' then
        if (strOf "alse").isPrefixOf rest then some (.bool false, rest.drop 4) else none
      else if c = '"' then
        (parseJsonStrBody rest).map (fun p => (.str p.1, p.2))
      else if c = '[' then
        match skipWs rest with
        | ']' :: r2 => some (.arr [], r2)
        | other => (parseJsonElems fuel other).map (fun p => (.arr p.1, p.2))
      else if c = lbraceChar then
        match skipWs rest with
        | r2 =>
          if r2.head? = some rbraceChar then some (.obj [], r2.drop 1)
          else (parseJsonFields fuel r2).map (fun p => (.obj p.1, p.2))
      else
        (parseJsonNumber (c :: rest)).map (fun p => (.num p.1, p.2))

/-- Comma-separated array elements up to the closing bracket. -/
def parseJsonElems : Nat → Str → Option (List Json × Str)
  | 0, _ => none
  | Nat.succ fuel, cs =>
    match parseJsonVal fuel cs with
    | none => none
    | some (v, rest) =>
      match skipWs rest with
      | ',' :: r2 => (parseJsonElems fuel r2).map (fun p => (v :: p.1, p.2))
      | ']' :: r2 => some ([v], r2)
      | _ => none

/-- Comma-separated `"key": value` fields up to the closing brace. -/
def parseJsonFields : Nat → Str → Option (List (Str × Json) × Str)
  | 0, _ => none
  | Nat.succ fuel, cs =>
    match skipWs cs with
    | '"' :: r =>
      match parseJsonStrBody r with
      | none => none
      | some (k, r2) =>
        match skipWs r2 with
        | ':' :: r3 =>
          match parseJsonVal fuel r3 with
          | none => none
          | some (v, r4) =>
            match skipWs r4 with
            | ',' :: r5 => (parseJsonFields fuel r5).map (fun p => ((k, v) :: p.1, p.2))
            | r5 =>
              if r5.head? = some rbraceChar then some ([(k, v)], r5.drop 1) else none
        | _ => none
    | _ => none

end

/-- `serde_json::from_str::<Value>` on a complete input. -/
def jsonParse (cs : Str) : Option Json :=
  match parseJsonVal (2 * cs.length + 2) cs with
  | some (v, rest) => if skipWs rest = [] then some v else none
  | none => none

/-- The result of `str::parse::<f64>()`: a finite value (exact rational
model), a signed infinity, or NaN. -/
inductive F64 : Type where
  | finite : Rat → F64
  | infinite : Bool → F64
  | nan : F64
deriving DecidableEq

/-- The IEEE-754 round-to-nearest overflow boundary for `f64`: a decimal
whose exact magnitude is at least `2^1024 - 2^970` (the midpoint between
`f64::MAX = 2^1024 - 2^971` and `2^1024`, which ties-to-even sends up)
rounds to infinity, so `str::parse::<f64>` saturates it to `inf`. -/
def f64OverflowBound : Nat := 2 ^ 1024 - 2 ^ 970

/-- Whether the decimal `digits * 10^(ex - flen)` (the exact value of a
literal with integer-and-fraction digits `digits`, `flen` fraction digits
and exponent `ex`) overflows `f64`, i.e. parses as infinity. -/
def decimalOverflows (digits : Nat) (flen : Nat) (ex : Int) : Bool :=
  let e : Int := ex - (flen : Int)
  if 0 ≤ e then f64OverflowBound ≤ digits * 10 ^ e.toNat
  else f64OverflowBound * 10 ^ (-e).toNat ≤ digits

/-- Rust `str::parse::<f64>()`: optional sign, then `inf`/`infinity`/`nan`
(case-insensitive) or a decimal with optional fraction and exponent; a
decimal whose value overflows `f64` saturates to the signed infinity
(e.g. `1e999`).  Rounding of in-range finite values to the nearest `f64`
is abstracted away. -/
def parseF64 (cs : Str) : Option F64 :=
  let signed : Bool × Str :=
    match cs with
    | '-' :: r => (true, r)
    | '+' :: r => (false, r)
    | _ => (false, cs)
  let neg := signed.1
  let body := signed.2
  let low := lowerStr body
  if low = strOf "inf" ∨ low = strOf "infinity" then some (.infinite neg)
  else if low = strOf "nan" then some .nan
  else
    let ip := readDigits body
    let dotted : Option (Str × Str) :=
      match ip.2 with
      | '.' :: r => some (readDigits r)
      | _ => none
    let fp : Str := match dotted with | some d => d.1 | none => []
    let afterFrac : Str := match dotted with | some d => d.2 | none => ip.2
    if ip.1 = [] ∧ fp = [] then none
    else
      let expPart : Option (Int × Str) :=
        match afterFrac with
        | e :: r =>
          if e = 'e' ∨ e = 'E' then
            let esigned : Bool × Str :=
              match r with
              | '-' :: r2 => (true, r2)
              | '+' :: r2 => (false, r2)
              | _ => (false, r)
            let eds := readDigits esigned.2
            if eds.1 = [] then none
            else some (if esigned.1 then -(digitsToNat eds.1 : Int) else (digitsToNat eds.1 : Int), eds.2)
          else some (0, afterFrac)
        | [] => some (0, [])
      match expPart with
      | none => none
      | some (ex, rest) =>
        if rest ≠ [] then none
        else if decimalOverflows (digitsToNat (ip.1 ++ fp)) fp.length ex then
          some (.infinite neg)
        else
          let mant : Rat :=
            if fp = [] then (digitsToNat ip.1 : Rat)
            else (digitsToNat (ip.1 ++ fp) : Rat) / (pow10 fp.length : Rat)
          let value : Rat := if ex = 0 then mant else mant * (10 : Rat) ^ ex
          some (.finite (if neg then -value else value))

/-- `serde_json::json!(num)` for `num : f64`, i.e. `Value::from(f64)`:
`Number::from_f64` yields `None` for non-finite values, which the
conversion maps to `Value::Null`. -/
def jsonOfF64 : F64 → Json
  | .finite q => .num q
  | .infinite _ => .null
  | .nan => .null

/-- `engine.rs::QueryOperator`. -/
inductive QueryOperator : Type where
  | equals : QueryOperator
  | notEquals : QueryOperator
  | greaterThan : QueryOperator
  | lessThan : QueryOperator
  | greaterThanOrEqual : QueryOperator
  | lessThanOrEqual : QueryOperator
  | contains : QueryOperator
deriving DecidableEq

/-- `engine.rs::QueryCondition`. -/
structure QueryCondition : Type where
  field_path : Str
  operator : QueryOperator
  value : Json

mutual

/-- `serde_json::Value`'s `PartialEq` (structural equality), as used by the
`==`/`!=` of `matches_condition`. -/
def jsonBeq : Json → Json → Bool
  | .null, .null => true
  | .bool x, .bool y => x = y
  | .num x, .num y => x = y
  | .str x, .str y => x = y
  | .arr xs, .arr ys => jsonListBeq xs ys
  | .obj xs, .obj ys => jsonFieldsBeq xs ys
  | _, _ => false

def jsonListBeq : List Json → List Json → Bool
  | [], [] => true
  | x :: xs, y :: ys => jsonBeq x y && jsonListBeq xs ys
  | _, _ => false

def jsonFieldsBeq : List (Str × Json) → List (Str × Json) → Bool
  | [], [] => true
  | (k1, v1) :: xs, (k2, v2) :: ys => k1 = k2 && jsonBeq v1 v2 && jsonFieldsBeq xs ys
  | _, _ => false

end

/-- `engine.rs::get_nested_value`, after splitting the path on `'.'`:
follow the segments through nested objects only. -/
def get_nested_go : Json → List Str → Option Json
  | cur, [] => some cur
  | cur, part :: rest =>
    match cur with
    | .obj o =>
      match lookupA o part with
      | some nxt => get_nested_go nxt rest
      | none => none
    | _ => none

/-- `engine.rs::get_nested_value`. -/
def get_nested_value (value : Json) (field_path : Str) : Option Json :=
  get_nested_go value (splitOnChar '.' field_path)

def Json.isStr : Json → Bool
  | .str _ => true
  | _ => false

def Json.isNum : Json → Bool
  | .num _ => true
  | _ => false

/-- `engine.rs::matches_condition`: the match arms in source order; the
`as_f64` comparisons are modelled on the exact rational values. -/
def matches_condition (value : Json) (condition : QueryCondition) : Bool :=
  match get_nested_value value condition.field_path, condition.operator, condition.value with
  | some f, .equals, expected => jsonBeq f expected
  | some f, .notEquals, expected => ! jsonBeq f expected
  | some (.str fs), .contains, .str es => containsSub es fs
  | some (.num fn), .greaterThan, .num en => decide (en < fn)
  | some (.num fn), .lessThan, .num en => decide (fn < en)
  | some (.num fn), .greaterThanOrEqual, .num en => decide (en ≤ fn)
  | some (.num fn), .lessThanOrEqual, .num en => decide (fn ≤ en)
  | none, _, _ => false
  | _, _, _ => false

/-- `engine.rs::matches_conditions`: conjunction over all conditions. -/
def matches_conditions (value : Json) (conditions : List QueryCondition) : Bool :=
  conditions.all (fun c => matches_condition value c)

/-- The in-memory index: `table name -> (key -> document)`. -/
abbrev Index : Type := List (Str × List (Str × Json))

/-- `engine.rs::get_row`. -/
def get_row (index : Index) (table key : Str) : Option Json :=
  (lookupA index table).bind (fun tm => lookupA tm key)

/-- `engine.rs::query_rows`. -/
def query_rows (index : Index) (table : Str) (conditions : List QueryCondition) :
    List (Str × Json) :=
  match lookupA index table with
  | none => []
  | some data => data.filter (fun p => matches_conditions p.2 conditions)

/-- A mutation issued to the engine (`add_row` / `update_row` /
`remove_row`), carrying the arguments of the call. -/
inductive Op : Type where
  | add : Str → Str → Json → Op
  | update : Str → Str → Json → Op
  | remove : Str → Str → Op

def opName : Op → Str
  | .add _ _ _ => strOf "add"
  | .update _ _ _ => strOf "update"
  | .remove _ _ => strOf "remove"

def opTable : Op → Str
  | .add t _ _ => t
  | .update t _ _ => t
  | .remove t _ => t

def opKey : Op → Str
  | .add _ k _ => k
  | .update _ k _ => k
  | .remove _ k => k

/-- The WAL value field: `entry.value.unwrap_or_default()` — the
serialized document for add/update, empty for remove. -/
def opValueStr : Op → Str
  | .add _ _ v => jsonToString v
  | .update _ _ v => jsonToString v
  | .remove _ _ => []

/-- `logs.rs::log_entry`: the line `operation|table|key|value` appended for
one mutation (the terminating newline is the line separator that
`reader.lines()` strips again during replay; the WAL is modelled at line
granularity, which is exact whenever fields contain no newline —
`serde_json` serializations never do). -/
def log_entry_line (op : Op) : Str :=
  opName op ++ '|' :: (opTable op ++ '|' :: (opKey op ++ '|' :: opValueStr op))

/-- The in-memory effect of `engine.rs::add_row` / `update_row` (their
index updates are identical): `entry(table).or_insert(new map)` then
`insert(key, values)`. -/
def add_row_index (index : Index) (table key : Str) (values : Json) : Index :=
  insertA index table (insertA ((lookupA index table).getD []) key values)

/-- The in-memory effect of `engine.rs::remove_row`: delete the key if the
table exists; no table is created. -/
def remove_row_index (index : Index) (table key : Str) : Index :=
  match lookupA index table with
  | none => index
  | some tm => insertA index table (eraseA tm key)

/-- One mutation applied directly in memory. -/
def apply_op (index : Index) : Op → Index
  | .add t k v => add_row_index index t k v
  | .update t k v => add_row_index index t k v
  | .remove t k => remove_row_index index t k

/-- A sequence of mutations applied directly in memory to a fresh engine. -/
def apply_ops (ops : List Op) : Index := ops.foldl apply_op []

/-- The WAL file produced by a sequence of mutations on a fresh engine. -/
def wal_lines (ops : List Op) : List Str := ops.map log_entry_line

/-- The effect of one replayed record on the table map obtained through
`entry(table).or_insert(new map)`: add/update insert a parseable document
(and drop an unparseable or absent one), remove deletes the key, an
unknown operation leaves the map alone. -/
def replay_table_map (tm : List (Str × Json)) (operation key : Str) (value : Option Json) :
    List (Str × Json) :=
  if operation = strOf "add" ∨ operation = strOf "update" then
    match value with
    | some val => insertA tm key val
    | none => tm
  else if operation = strOf "remove" then eraseA tm key
  else tm

/-- `engine.rs::replay_log`, one line: split on `'|'`; with at least three
fields, `entry(table).or_insert(new map)` runs before the operation is
examined (so the table map is created, or re-stored, even for unknown
operations), then the record mutates that map. -/
def replay_line (index : Index) (line : Str) : Index :=
  let parts := splitOnChar '|' line
  if 3 ≤ parts.length then
    let operation := parts.getD 0 []
    let table := parts.getD 1 []
    let key := parts.getD 2 []
    let value : Option Json :=
      if 3 < parts.length ∧ parts.getD 3 [] ≠ [] then jsonParse (parts.getD 3 []) else none
    insertA index table (replay_table_map ((lookupA index table).getD []) operation key value)
  else index

/-- `engine.rs::replay_log` over the whole file, starting from the empty
index of a fresh engine. -/
def replay_log (lines : List Str) : Index := lines.foldl replay_line []

/-- The engine's durable and in-memory state. -/
structure EngineState : Type where
  wal : List Str
  index : Index

/-- The atomic steps of one mutating engine operation, in the program
order of `add_row`/`update_row`/`remove_row`: first
`log_storage.log_entry(entry).await` (the WAL append, completed before the
call returns), then the index write under the write lock. -/
def mutation_steps (op : Op) : List (EngineState → EngineState) :=
  [fun s => { s with wal := s.wal ++ [log_entry_line op] },
   fun s => { s with index := apply_op s.index op }]

def run_steps (steps : List (EngineState → EngineState)) (s : EngineState) : EngineState :=
  steps.foldl (fun st f => f st) s

/-- The structured effect of `replay_line` on a well-formed log line:
like `apply_op`, except that a replayed `remove` creates the (empty)
table map through `entry().or_insert`. -/
def replay_op (index : Index) : Op → Index
  | .add t k v => add_row_index index t k v
  | .update t k v => add_row_index index t k v
  | .remove t k => insertA index t (eraseA ((lookupA index t).getD []) k)

/-- The well-formedness of one mutation under the WAL encoding: fields are
free of the reserved `'|'` delimiter (spec section 4.1 forbids it in field
values), and the document survives the serde round trip. -/
def opOk : Op → Prop
  | .add t k v =>
    '|' ∉ t ∧ '|' ∉ k ∧ '|' ∉ jsonToString v ∧ jsonToString v ≠ [] ∧
      jsonParse (jsonToString v) = some v
  | .update t k v =>
    '|' ∉ t ∧ '|' ∉ k ∧ '|' ∉ jsonToString v ∧ jsonToString v ≠ [] ∧
      jsonParse (jsonToString v) = some v
  | .remove t k => '|' ∉ t ∧ '|' ∉ k

theorem pipe_not_mem_opName (op : Op) : '|' ∉ opName op := by
  cases op <;> simp [opName, strOf]

theorem splitOnChar_log_entry_line (op : Op)
    (ht : '|' ∉ opTable op) (hk : '|' ∉ opKey op) (hv : '|' ∉ opValueStr op) :
    splitOnChar '|' (log_entry_line op) =
      [opName op, opTable op, opKey op, opValueStr op] := by
  rw [log_entry_line]
  rw [splitOnChar_append_sep '|' (opName op) _ (pipe_not_mem_opName op)]
  rw [splitOnChar_append_sep '|' (opTable op) _ ht]
  rw [splitOnChar_append_sep '|' (opKey op) _ hk]
  rw [splitOnChar_no_sep '|' (opValueStr op) hv]

theorem replay_line_add (idx : Index) (t k : Str) (v : Json)
    (ht : '|' ∉ t) (hk : '|' ∉ k) (hv : '|' ∉ jsonToString v)
    (hne : jsonToString v ≠ []) (hparse : jsonParse (jsonToString v) = some v) :
    replay_line idx (log_entry_line (.add t k v)) = add_row_index idx t k v := by
  have hsp := splitOnChar_log_entry_line (.add t k v) ht hk hv
  simp only [opTable, opKey, opValueStr, opName] at hsp
  rw [replay_line, hsp]
  simp only [List.length_cons, List.length_nil, List.getD]
  norm_num
  simp [strOf, hne, hparse, add_row_index, replay_table_map]

theorem replay_line_update (idx : Index) (t k : Str) (v : Json)
    (ht : '|' ∉ t) (hk : '|' ∉ k) (hv : '|' ∉ jsonToString v)
    (hne : jsonToString v ≠ []) (hparse : jsonParse (jsonToString v) = some v) :
    replay_line idx (log_entry_line (.update t k v)) = add_row_index idx t k v := by
  have hsp := splitOnChar_log_entry_line (.update t k v) ht hk hv
  simp only [opTable, opKey, opValueStr, opName] at hsp
  rw [replay_line, hsp]
  simp only [List.length_cons, List.length_nil, List.getD]
  norm_num
  simp [strOf, hne, hparse, add_row_index, replay_table_map]

theorem replay_line_remove (idx : Index) (t k : Str)
    (ht : '|' ∉ t) (hk : '|' ∉ k) :
    replay_line idx (log_entry_line (.remove t k)) =
      insertA idx t (eraseA ((lookupA idx t).getD []) k) := by
  have hsp := splitOnChar_log_entry_line (.remove t k) ht hk (by simp [opValueStr])
  simp only [opTable, opKey, opValueStr, opName] at hsp
  rw [replay_line, hsp]
  simp only [List.length_cons, List.length_nil, List.getD]
  norm_num
  simp [strOf, replay_table_map]

theorem replay_line_opOk (idx : Index) (op : Op) (h : opOk op) :
    replay_line idx (log_entry_line op) = replay_op idx op := by
  cases op with
  | add t k v =>
    rcases h with ⟨ht, hk, hv, hne, hparse⟩
    exact replay_line_add idx t k v ht hk hv hne hparse
  | update t k v =>
    rcases h with ⟨ht, hk, hv, hne, hparse⟩
    exact replay_line_update idx t k v ht hk hv hne hparse
  | remove t k =>
    rcases h with ⟨ht, hk⟩
    exact replay_line_remove idx t k ht hk

theorem lookupA_getD_bind (idx : Index) (t k : Str) :
    lookupA ((lookupA idx t).getD []) k = get_row idx t k := by
  cases h : lookupA idx t <;> simp [get_row, h, lookupA]

theorem get_row_insertA (idx : Index) (tb : Str) (m : List (Str × Json)) (t k : Str) :
    get_row (insertA idx tb m) t k = if tb = t then lookupA m k else get_row idx t k := by
  by_cases h : tb = t
  · subst h
    simp [get_row, lookupA_insertA_self]
  · rw [if_neg h]
    unfold get_row
    rw [lookupA_insertA_ne idx tb t m (fun e => h e.symm)]

/-- Simulation relation between a directly built index and a replayed one:
every table map agrees, except that a replayed `remove` may have created
an empty table map where direct application created none. -/
def relIdx (d r : Index) : Prop :=
  ∀ t, lookupA r t = lookupA d t ∨ (lookupA d t = none ∧ lookupA r t = some [])

theorem relIdx_step (d r : Index) (op : Op) (h : relIdx d r) :
    relIdx (apply_op d op) (replay_op r op) := by
  have hsame : ∀ t k v, relIdx (add_row_index d t k v) (add_row_index r t k v) := by
    intro t k v t'
    have htm : (lookupA r t).getD [] = (lookupA d t).getD [] := by
      rcases h t with heq | ⟨hd, hr⟩
      · rw [heq]
      · rw [hd, hr]
        rfl
    by_cases ht' : t = t'
    · subst ht'
      left
      unfold add_row_index
      rw [lookupA_insertA_self, lookupA_insertA_self, htm]
    · unfold add_row_index
      rw [lookupA_insertA_ne _ _ _ _ (fun e => ht' e.symm),
        lookupA_insertA_ne _ _ _ _ (fun e => ht' e.symm)]
      exact h t'
  cases op with
  | add t k v => exact hsame t k v
  | update t k v => exact hsame t k v
  | remove t k =>
    intro t'
    by_cases ht' : t = t'
    · subst ht'
      rcases h t with heq | ⟨hd, hr⟩
      · cases hdt : lookupA d t with
        | none =>
          right
          constructor
          · simp [apply_op, remove_row_index, hdt]
          · simp only [replay_op]
            rw [lookupA_insertA_self, heq, hdt]
            rfl
        | some m =>
          left
          simp only [apply_op, remove_row_index, hdt, replay_op]
          rw [lookupA_insertA_self, lookupA_insertA_self, heq, hdt]
          rfl
      · right
        constructor
        · simp [apply_op, remove_row_index, hd]
        · simp only [replay_op]
          rw [lookupA_insertA_self, hr]
          rfl
    · have hne : t' ≠ t := fun e => ht' e.symm
      have hrep : lookupA (replay_op r (.remove t k)) t' = lookupA r t' := by
        simp only [replay_op]
        rw [lookupA_insertA_ne _ _ _ _ hne]
      have hdir : lookupA (apply_op d (.remove t k)) t' = lookupA d t' := by
        simp only [apply_op, remove_row_index]
        cases hdt : lookupA d t with
        | none => rfl
        | some m => rw [lookupA_insertA_ne _ _ _ _ hne]
      rw [hrep, hdir]
      exact h t'

theorem relIdx_get_row (d r : Index) (h : relIdx d r) (t k : Str) :
    get_row r t k = get_row d t k := by
  rcases h t with heq | ⟨hd, hr⟩
  · simp [get_row, heq]
  · simp [get_row, hd, hr, lookupA]

theorem replay_fold_rel (ops : List Op) (d r : Index) (h : relIdx d r)
    (hOk : ∀ op ∈ ops, opOk op) :
    relIdx (ops.foldl apply_op d) ((ops.map log_entry_line).foldl replay_line r) := by
  induction ops generalizing d r with
  | nil => exact h
  | cons op rest ih =>
    simp only [List.foldl_cons, List.map_cons]
    rw [replay_line_opOk r op (hOk op (List.mem_cons_self op rest))]
    exact ih (apply_op d op) (replay_op r op) (relIdx_step d r op h)
      (fun o ho => hOk o (List.mem_cons_of_mem op ho))

/-- C1 (amended): for any sequence of add/update/remove mutations whose
table names and keys are free of the reserved `'|'` delimiter and whose
documents round-trip through serde, replaying the WAL produced by the
sequence yields an index that agrees with direct in-memory application at
every `get_row(table, key)` — i.e. the two indexes are equal up to the
empty table maps that replayed `remove` records create. -/
theorem replay_log_agrees_with_direct_apply (ops : List Op)
    (hOk : ∀ op ∈ ops, opOk op) (t k : Str) :
    get_row (replay_log (wal_lines ops)) t k = get_row (apply_ops ops) t k :=
  relIdx_get_row (apply_ops ops) (replay_log (wal_lines ops))
    (replay_fold_rel ops [] [] (fun _ => Or.inl rfl) hOk) t k

/-- Witness for C1: a two-mutation sequence (an add and a remove of a
different key) satisfies the hypotheses, and replay agrees with direct
application on the touched key. -/
theorem replay_log_agrees_witness :
    (∀ op ∈ [Op.add (strOf "users") (strOf "u1") (Json.obj [(strOf "a", Json.num 1)]),
        Op.remove (strOf "users") (strOf "u2")], opOk op) ∧
    get_row (replay_log (wal_lines
        [Op.add (strOf "users") (strOf "u1") (Json.obj [(strOf "a", Json.num 1)]),
         Op.remove (strOf "users") (strOf "u2")])) (strOf "users") (strOf "u1") =
      get_row (apply_ops
        [Op.add (strOf "users") (strOf "u1") (Json.obj [(strOf "a", Json.num 1)]),
         Op.remove (strOf "users") (strOf "u2")]) (strOf "users") (strOf "u1") := by
  have hOk : ∀ op ∈ [Op.add (strOf "users") (strOf "u1") (Json.obj [(strOf "a", Json.num 1)]),
      Op.remove (strOf "users") (strOf "u2")], opOk op := by
    intro op hop
    rcases List.mem_cons.mp hop with h1 | h1
    · subst h1
      refine ⟨by decide, by decide, by decide, by decide, rfl⟩
    · rcases List.mem_cons.mp h1 with h2 | h2
      · subst h2
        exact ⟨by decide, by decide⟩
      · simp at h2
  exact ⟨hOk, replay_log_agrees_with_direct_apply _ hOk (strOf "users") (strOf "u1")⟩

/-- Counterexample for C1 as stated: a single `remove` on a fresh engine.
Direct application leaves the index empty, while replay creates an empty
table map through `entry().or_insert`, so the two indexes are not equal. -/
theorem replay_log_not_identical_counterexample :
    replay_log (wal_lines [Op.remove (strOf "t") (strOf "k")]) ≠
      apply_ops [Op.remove (strOf "t") (strOf "k")] ∧
    replay_log (wal_lines [Op.remove (strOf "t") (strOf "k")]) =
      [(strOf "t", ([] : List (Str × Json)))] ∧
    apply_ops [Op.remove (strOf "t") (strOf "k")] = [] := by
  have e1 : replay_log (wal_lines [Op.remove (strOf "t") (strOf "k")]) =
      [(strOf "t", ([] : List (Str × Json)))] := rfl
  have e2 : apply_ops [Op.remove (strOf "t") (strOf "k")] = [] := rfl
  refine ⟨?_, e1, e2⟩
  rw [e1, e2]
  exact List.cons_ne_nil _ _

theorem lookupA_replay_table_map_ne (tm : List (Str × Json)) (operation ky : Str)
    (value : Option Json) (k : Str) (h : k ≠ ky) :
    lookupA (replay_table_map tm operation ky value) k = lookupA tm k := by
  unfold replay_table_map
  by_cases h1 : operation = strOf "add" ∨ operation = strOf "update"
  · rw [if_pos h1]
    cases value with
    | none => rfl
    | some val => exact lookupA_insertA_ne tm ky k val h
  · rw [if_neg h1]
    by_cases h2 : operation = strOf "remove"
    · rw [if_pos h2]
      exact lookupA_eraseA_ne tm ky k h
    · rw [if_neg h2]

theorem pipe_not_mem_split_getD (l : Str) (i : Nat) :
    '|' ∉ (splitOnChar '|' l).getD i [] := by
  rw [List.getD_eq_getElem?_getD]
  cases hg : (splitOnChar '|' l)[i]? with
  | none => simp
  | some x =>
    simp only [hg, Option.getD_some]
    exact mem_splitOnChar_no_sep '|' l x (List.getElem?_mem hg)

/-- A WAL line whose parsed record addresses `(t, k)`. -/
def targets_record (l : Str) (t k : Str) : Prop :=
  3 ≤ (splitOnChar '|' l).length ∧
    (splitOnChar '|' l).getD 1 [] = t ∧ (splitOnChar '|' l).getD 2 [] = k

theorem replay_line_off_target (idx : Index) (l : Str) (t k : Str)
    (hnt : ¬ ((splitOnChar '|' l).getD 1 [] = t ∧ (splitOnChar '|' l).getD 2 [] = k)) :
    get_row (replay_line idx l) t k = get_row idx t k := by
  simp only [replay_line]
  by_cases hlen : 3 ≤ (splitOnChar '|' l).length
  · rw [if_pos hlen, get_row_insertA]
    by_cases htb : (splitOnChar '|' l).getD 1 [] = t
    · rw [if_pos htb]
      have hky : (splitOnChar '|' l).getD 2 [] ≠ k := fun e => hnt ⟨htb, e⟩
      rw [lookupA_replay_table_map_ne _ _ _ _ _ (fun e => hky e.symm)]
      rw [htb, lookupA_getD_bind]
    · rw [if_neg htb]
  · rw [if_neg hlen]

theorem replay_line_not_targets (idx : Index) (l : Str) (t k : Str)
    (h : ¬ targets_record l t k) :
    get_row (replay_line idx l) t k = get_row idx t k := by
  by_cases hlen : 3 ≤ (splitOnChar '|' l).length
  · exact replay_line_off_target idx l t k (fun hc => h ⟨hlen, hc.1, hc.2⟩)
  · simp only [replay_line]
    rw [if_neg hlen]

/-- Replay can never make a row visible under a table name or key that
holds the reserved `'|'` delimiter, because the parsed fields come from a
`split('|')`. -/
def pipe_free_none (idx : Index) : Prop :=
  ∀ t k : Str, ('|' ∈ t ∨ '|' ∈ k) → get_row idx t k = none

theorem pipe_free_none_replay_line (idx : Index) (l : Str) (h : pipe_free_none idx) :
    pipe_free_none (replay_line idx l) := by
  intro t k hp
  simp only [replay_line]
  by_cases hlen : 3 ≤ (splitOnChar '|' l).length
  · rw [if_pos hlen, get_row_insertA]
    by_cases htb : (splitOnChar '|' l).getD 1 [] = t
    · rw [if_pos htb]
      have hkpipe : '|' ∈ k := by
        rcases hp with hp | hp
        · exact absurd (htb ▸ hp) (pipe_not_mem_split_getD l 1)
        · exact hp
      have hky : k ≠ (splitOnChar '|' l).getD 2 [] := by
        intro e
        exact pipe_not_mem_split_getD l 2 (e ▸ hkpipe)
      rw [lookupA_replay_table_map_ne _ _ _ _ _ hky, htb, lookupA_getD_bind]
      exact h t k hp
    · rw [if_neg htb]
      exact h t k hp
  · rw [if_neg hlen]
    exact h t k hp

theorem pipe_free_none_foldl (lines : List Str) (idx : Index) (h : pipe_free_none idx) :
    pipe_free_none (lines.foldl replay_line idx) := by
  induction lines generalizing idx with
  | nil => exact h
  | cons l rest ih => exact ih (replay_line idx l) (pipe_free_none_replay_line idx l h)

theorem replay_preserve_none (lines : List Str) (idx : Index) (t k : Str)
    (hl : ∀ l ∈ lines, ¬ targets_record l t k) (h : get_row idx t k = none) :
    get_row (lines.foldl replay_line idx) t k = none := by
  induction lines generalizing idx with
  | nil => exact h
  | cons l rest ih =>
    refine ih (replay_line idx l) (fun x hx => hl x (List.mem_cons_of_mem l hx)) ?_
    rw [replay_line_not_targets idx l t k (hl l (List.mem_cons_self l rest))]
    exact h

/-- C7: replaying a WAL holding `add(t,k,v)` followed later by
`remove(t,k)`, with no later record addressing `(t,k)`, leaves
`get_row(t,k) = none`. -/
theorem tombstone_replay_none (t k : Str) (v : Json) (A B C : List Str)
    (hC : ∀ l ∈ C, ¬ targets_record l t k) :
    get_row (replay_log
      (A ++ log_entry_line (Op.add t k v) :: (B ++ log_entry_line (Op.remove t k) :: C)))
      t k = none := by
  rw [replay_log, List.foldl_append, List.foldl_cons, List.foldl_append, List.foldl_cons]
  apply replay_preserve_none C _ t k hC
  by_cases hp : '|' ∈ t ∨ '|' ∈ k
  · refine pipe_free_none_replay_line _ _ ?_ t k hp
    refine pipe_free_none_foldl B _ ?_
    refine pipe_free_none_replay_line _ _ ?_
    refine pipe_free_none_foldl A _ ?_
    intro t' k' _
    simp [get_row, lookupA]
  · push_neg at hp
    rw [replay_line_remove _ t k hp.1 hp.2, get_row_insertA, if_pos rfl]
    exact lookupA_eraseA_self _ k

/-- Witness for C7: the two-record WAL `add(users,u1,1)` then
`remove(users,u1)` replays to an index with no row at `(users, u1)`. -/
theorem tombstone_replay_none_witness :
    (∀ l ∈ ([] : List Str), ¬ targets_record l (strOf "users") (strOf "u1")) ∧
    get_row (replay_log
      ([] ++ log_entry_line (Op.add (strOf "users") (strOf "u1") (Json.num 1)) ::
        ([] ++ log_entry_line (Op.remove (strOf "users") (strOf "u1")) :: [])))
      (strOf "users") (strOf "u1") = none := by
  have hC : ∀ l ∈ ([] : List Str), ¬ targets_record l (strOf "users") (strOf "u1") := by
    intro l hl
    simp at hl
  exact ⟨hC, tombstone_replay_none (strOf "users") (strOf "u1") (Json.num 1) [] [] [] hC⟩

/-- C2: in the step decomposition of every mutating engine operation, any
prefix of the execution that has already changed the index has already
appended the operation's record to the WAL — the WAL append completes
strictly before the change becomes visible. -/
theorem wal_append_before_index_visible (op : Op) (s : EngineState)
    (p q : List (EngineState → EngineState)) (hsplit : mutation_steps op = p ++ q)
    (hchange : (run_steps p s).index ≠ s.index) :
    log_entry_line op ∈ (run_steps p s).wal := by
  cases p with
  | nil => exact absurd rfl hchange
  | cons a p' =>
    cases p' with
    | nil =>
      simp only [mutation_steps, List.cons_append, List.nil_append] at hsplit
      have ha := (List.cons.injEq _ _ _ _).mp hsplit
      exact absurd (by rw [show run_steps [a] s = a s from rfl, ← ha.1]) hchange
    | cons b p'' =>
      cases p'' with
      | nil =>
        simp only [mutation_steps, List.cons_append, List.nil_append] at hsplit
        have ha := (List.cons.injEq _ _ _ _).mp hsplit
        have hb := (List.cons.injEq _ _ _ _).mp ha.2
        have hrun : run_steps [a, b] s = b (a s) := rfl
        rw [hrun, ← hb.1, ← ha.1]
        simp
      | cons c p''' =>
        simp only [mutation_steps, List.cons_append] at hsplit
        have ha := (List.cons.injEq _ _ _ _).mp hsplit
        have hb := (List.cons.injEq _ _ _ _).mp ha.2
        exact absurd hb.2 (by simp)

/-- Witness for C2: running the full step list of an `add` on a fresh
engine changes the index, and the WAL then holds the record. -/
theorem wal_append_before_index_visible_witness :
    mutation_steps (Op.add (strOf "t") (strOf "k") Json.null) =
      mutation_steps (Op.add (strOf "t") (strOf "k") Json.null) ++ [] ∧
    (run_steps (mutation_steps (Op.add (strOf "t") (strOf "k") Json.null))
        ⟨[], []⟩).index ≠ (⟨[], []⟩ : EngineState).index ∧
    log_entry_line (Op.add (strOf "t") (strOf "k") Json.null) ∈
      (run_steps (mutation_steps (Op.add (strOf "t") (strOf "k") Json.null)) ⟨[], []⟩).wal := by
  have hchange : (run_steps (mutation_steps (Op.add (strOf "t") (strOf "k") Json.null))
      ⟨[], []⟩).index ≠ (⟨[], []⟩ : EngineState).index := by
    have e1 : (run_steps (mutation_steps (Op.add (strOf "t") (strOf "k") Json.null))
        ⟨[], []⟩).index = [(strOf "t", [(strOf "k", Json.null)])] := rfl
    rw [e1]
    exact List.cons_ne_nil _ _
  exact ⟨(List.append_nil _).symm, hchange,
    wal_append_before_index_visible _ ⟨[], []⟩ _ [] (List.append_nil _).symm hchange⟩

/-- C3: `matches_condition` is a total boolean predicate (the embedding is
a total function into `Bool`, mirroring that the Rust function returns
`bool` on every path and never errors); an unresolved field, a `contains`
with a non-string side, or an ordering operator with a non-number side
each evaluate to `false`, excluding the document. -/
theorem matches_condition_mismatch_false (v : Json) (c : QueryCondition)
    (h : get_nested_value v c.field_path = none ∨
      (c.operator = QueryOperator.contains ∧
        ∃ fv, get_nested_value v c.field_path = some fv ∧
          (fv.isStr = false ∨ c.value.isStr = false)) ∨
      ((c.operator = QueryOperator.greaterThan ∨ c.operator = QueryOperator.lessThan ∨
          c.operator = QueryOperator.greaterThanOrEqual ∨
          c.operator = QueryOperator.lessThanOrEqual) ∧
        ∃ fv, get_nested_value v c.field_path = some fv ∧
          (fv.isNum = false ∨ c.value.isNum = false))) :
    matches_condition v c = false := by
  obtain ⟨fp, op, val⟩ := c
  simp only at h
  rcases h with hn | ⟨hop, fv, hfv, hty⟩ | ⟨hop, fv, hfv, hty⟩
  · unfold matches_condition
    simp only
    rw [hn]
  · subst hop
    unfold matches_condition
    simp only
    rw [hfv]
    cases fv <;> cases val <;> (try rfl) <;> simp [Json.isStr] at hty
  · rcases hop with hop | hop | hop | hop <;> subst hop <;>
      (unfold matches_condition
       simp only
       rw [hfv]
       cases fv <;> cases val <;> (try rfl) <;> simp [Json.isNum] at hty)

/-- Witness for C3: the spec's own example — a document without `bio` is
excluded by `bio contains "x"`, with `false` rather than an error. -/
theorem matches_condition_mismatch_false_witness :
    get_nested_value
      (Json.obj [(strOf "name", Json.str (strOf "John")), (strOf "age", Json.num 30)])
      (strOf "bio") = none ∧
    matches_condition
      (Json.obj [(strOf "name", Json.str (strOf "John")), (strOf "age", Json.num 30)])
      ⟨strOf "bio", QueryOperator.contains, Json.str (strOf "x")⟩ = false := by
  refine ⟨rfl, ?_⟩
  exact matches_condition_mismatch_false _ _ (Or.inl rfl)

def msgERROR_INVALID_CONTAINS : Str :=
  strOf "Invalid contains condition format. Use: field contains \"value\""

def msgInvalidCondition (condition : Str) : Str :=
  strOf "Invalid condition format: " ++ condition

def msgUnsupportedOperator (op : Str) : Str :=
  strOf "Unsupported operator: " ++ op

/-- The value-literal typing block of
`connection.rs::parse_single_condition`: wrapped in double quotes →
string with all boundary quotes stripped; otherwise parsing as `f64` →
`json!(num)`; otherwise exactly `true`/`false` → boolean; otherwise
exactly `null` → null; otherwise the raw string. -/
def typeValueLiteral (value_str : Str) : Json :=
  if value_str.head? = some '"' ∧ value_str.getLast? = some '"' then
    .str (trimMatchesChar '"' value_str)
  else
    match parseF64 value_str with
    | some f => jsonOfF64 f
    | none =>
      if value_str = strOf "true" ∨ value_str = strOf "false" then
        .bool (value_str = strOf "true")
      else if value_str = strOf "null" then .null
      else .str value_str

def opOfStr (op : Str) : Option QueryOperator :=
  if op = strOf "=" then some .equals
  else if op = strOf "!=" then some .notEquals
  else if op = strOf ">" then some .greaterThan
  else if op = strOf "<" then some .lessThan
  else if op = strOf ">=" then some .greaterThanOrEqual
  else if op = strOf "<=" then some .lessThanOrEqual
  else none

/-- The fixed operator scan order of `parse_single_condition`. -/
def operatorsList : List Str :=
  [strOf ">=", strOf "<=", strOf "!=", strOf "=", strOf ">", strOf "<"]

/-- The operator loop of `parse_single_condition`: the first operator (in
list order) contained in the condition splits it with `splitn(2, op)`;
a split that does not yield two parts falls through to the next operator
(`continue`), and exhausting the list is the invalid-condition error. -/
def parse_ops_loop : List Str → Str → Except Str QueryCondition
  | [], condition_str => .error (msgInvalidCondition condition_str)
  | op :: rest, condition_str =>
    if containsSub op condition_str then
      match splitn2Sub op condition_str with
      | [f, vstr] =>
        match opOfStr op with
        | some oper => .ok ⟨trimStr f, oper, typeValueLiteral (trimStr vstr)⟩
        | none => .error (msgUnsupportedOperator op)
      | _ => parse_ops_loop rest condition_str
    else parse_ops_loop rest condition_str

/-- `connection.rs::parse_single_condition`: the `contains` form is
recognised first (whenever the string contains the substring `contains`,
split on `" contains "` into exactly two parts, else error), then the
operators are tried in the fixed order `>=, <=, !=, =, >, <`. -/
def parse_single_condition (condition_str : Str) : Except Str QueryCondition :=
  if containsSub (strOf "contains") condition_str then
    match splitSub (strOf " contains ") condition_str with
    | [f, vstr] =>
      .ok ⟨trimStr f, .contains, .str (trimMatchesChar '"' (trimStr vstr))⟩
    | _ => .error msgERROR_INVALID_CONTAINS
  else parse_ops_loop operatorsList condition_str

theorem opOfStr_ge : opOfStr (strOf ">=") = some QueryOperator.greaterThanOrEqual := rfl

theorem opOfStr_le : opOfStr (strOf "<=") = some QueryOperator.lessThanOrEqual := rfl

theorem opOfStr_ne : opOfStr (strOf "!=") = some QueryOperator.notEquals := rfl

theorem opOfStr_eq : opOfStr (strOf "=") = some QueryOperator.equals := rfl

theorem opOfStr_gt : opOfStr (strOf ">") = some QueryOperator.greaterThan := rfl

theorem opOfStr_lt : opOfStr (strOf "<") = some QueryOperator.lessThan := rfl

/-- C4 (amended): `parse_single_condition` recognises `contains` first;
otherwise the operators are tried in the fixed order `>=, <=, !=, =, >, <`
(so a two-character operator is never mis-split by a one-character one),
and the value literal is typed in order: quoted → string with the quotes
stripped; parsing as a 64-bit float → a number when the parsed float is
finite and `null` when it is non-finite (`json!` maps the `inf`/`nan`
spellings, and decimals that overflow `f64` and hence parse as a
saturated infinity, to null); exactly `true`/`false` → boolean; exactly
`null` → null; otherwise the raw string. -/
theorem parse_single_condition_order_and_typing (cs f vs : Str) (q : Rat) :
    (containsSub (strOf "contains") cs = true →
      splitSub (strOf " contains ") cs = [f, vs] →
      parse_single_condition cs =
        .ok ⟨trimStr f, .contains, .str (trimMatchesChar '"' (trimStr vs))⟩) ∧
    (containsSub (strOf "contains") cs = true →
      (splitSub (strOf " contains ") cs).length ≠ 2 →
      parse_single_condition cs = .error msgERROR_INVALID_CONTAINS) ∧
    (containsSub (strOf "contains") cs = false →
      splitFirstSub (strOf ">=") cs = some (f, vs) →
      parse_single_condition cs =
        .ok ⟨trimStr f, .greaterThanOrEqual, typeValueLiteral (trimStr vs)⟩) ∧
    (containsSub (strOf "contains") cs = false →
      containsSub (strOf ">=") cs = false →
      splitFirstSub (strOf "<=") cs = some (f, vs) →
      parse_single_condition cs =
        .ok ⟨trimStr f, .lessThanOrEqual, typeValueLiteral (trimStr vs)⟩) ∧
    (containsSub (strOf "contains") cs = false →
      containsSub (strOf ">=") cs = false →
      containsSub (strOf "<=") cs = false →
      splitFirstSub (strOf "!=") cs = some (f, vs) →
      parse_single_condition cs =
        .ok ⟨trimStr f, .notEquals, typeValueLiteral (trimStr vs)⟩) ∧
    (containsSub (strOf "contains") cs = false →
      containsSub (strOf ">=") cs = false →
      containsSub (strOf "<=") cs = false →
      containsSub (strOf "!=") cs = false →
      splitFirstSub (strOf "=") cs = some (f, vs) →
      parse_single_condition cs =
        .ok ⟨trimStr f, .equals, typeValueLiteral (trimStr vs)⟩) ∧
    (containsSub (strOf "contains") cs = false →
      containsSub (strOf ">=") cs = false →
      containsSub (strOf "<=") cs = false →
      containsSub (strOf "!=") cs = false →
      containsSub (strOf "=") cs = false →
      splitFirstSub (strOf ">") cs = some (f, vs) →
      parse_single_condition cs =
        .ok ⟨trimStr f, .greaterThan, typeValueLiteral (trimStr vs)⟩) ∧
    (containsSub (strOf "contains") cs = false →
      containsSub (strOf ">=") cs = false →
      containsSub (strOf "<=") cs = false →
      containsSub (strOf "!=") cs = false →
      containsSub (strOf "=") cs = false →
      containsSub (strOf ">") cs = false →
      splitFirstSub (strOf "<") cs = some (f, vs) →
      parse_single_condition cs =
        .ok ⟨trimStr f, .lessThan, typeValueLiteral (trimStr vs)⟩) ∧
    (vs.head? = some '"' → vs.getLast? = some '"' →
      typeValueLiteral vs = .str (trimMatchesChar '"' vs)) ∧
    (¬ (vs.head? = some '"' ∧ vs.getLast? = some '"') →
      parseF64 vs = some (F64.finite q) → typeValueLiteral vs = .num q) ∧
    (¬ (vs.head? = some '"' ∧ vs.getLast? = some '"') →
      parseF64 vs = some (F64.infinite false) ∨ parseF64 vs = some (F64.infinite true) ∨
        parseF64 vs = some F64.nan →
      typeValueLiteral vs = .null) ∧
    (¬ (vs.head? = some '"' ∧ vs.getLast? = some '"') →
      parseF64 vs = none → vs = strOf "true" → typeValueLiteral vs = .bool true) ∧
    (¬ (vs.head? = some '"' ∧ vs.getLast? = some '"') →
      parseF64 vs = none → vs = strOf "false" → typeValueLiteral vs = .bool false) ∧
    (¬ (vs.head? = some '"' ∧ vs.getLast? = some '"') →
      parseF64 vs = none → vs ≠ strOf "true" → vs ≠ strOf "false" →
      vs = strOf "null" → typeValueLiteral vs = .null) ∧
    (¬ (vs.head? = some '"' ∧ vs.getLast? = some '"') →
      parseF64 vs = none → vs ≠ strOf "true" → vs ≠ strOf "false" →
      vs ≠ strOf "null" → typeValueLiteral vs = .str vs) := by
  refine ⟨?_, ?_, ?_, ?_, ?_, ?_, ?_, ?_, ?_, ?_, ?_, ?_, ?_, ?_, ?_⟩
  · intro h1 h2
    simp [parse_single_condition, h1, h2]
  · intro h1 hlen
    simp only [parse_single_condition, h1, if_true]
    rcases hs : splitSub (strOf " contains ") cs with _ | ⟨a, _ | ⟨b, _ | ⟨c, t⟩⟩⟩
    · rfl
    · rfl
    · exact absurd (by rw [hs]; rfl) hlen
    · rfl
  · intro h0 hsp
    have hc : containsSub (strOf ">=") cs = true := by simp [containsSub, hsp]
    have hsplit : splitn2Sub (strOf ">=") cs = [f, vs] := by simp [splitn2Sub, hsp]
    simp [parse_single_condition, h0, parse_ops_loop, operatorsList, hc, hsplit, opOfStr_ge]
  · intro h0 h1 hsp
    have hc : containsSub (strOf "<=") cs = true := by simp [containsSub, hsp]
    have hsplit : splitn2Sub (strOf "<=") cs = [f, vs] := by simp [splitn2Sub, hsp]
    simp [parse_single_condition, h0, parse_ops_loop, operatorsList, h1, hc, hsplit, opOfStr_le]
  · intro h0 h1 h2 hsp
    have hc : containsSub (strOf "!=") cs = true := by simp [containsSub, hsp]
    have hsplit : splitn2Sub (strOf "!=") cs = [f, vs] := by simp [splitn2Sub, hsp]
    simp [parse_single_condition, h0, parse_ops_loop, operatorsList, h1, h2, hc, hsplit,
      opOfStr_ne]
  · intro h0 h1 h2 h3 hsp
    have hc : containsSub (strOf "=") cs = true := by simp [containsSub, hsp]
    have hsplit : splitn2Sub (strOf "=") cs = [f, vs] := by simp [splitn2Sub, hsp]
    simp [parse_single_condition, h0, parse_ops_loop, operatorsList, h1, h2, h3, hc, hsplit,
      opOfStr_eq]
  · intro h0 h1 h2 h3 h4 hsp
    have hc : containsSub (strOf ">") cs = true := by simp [containsSub, hsp]
    have hsplit : splitn2Sub (strOf ">") cs = [f, vs] := by simp [splitn2Sub, hsp]
    simp [parse_single_condition, h0, parse_ops_loop, operatorsList, h1, h2, h3, h4, hc,
      hsplit, opOfStr_gt]
  · intro h0 h1 h2 h3 h4 h5 hsp
    have hc : containsSub (strOf "<") cs = true := by simp [containsSub, hsp]
    have hsplit : splitn2Sub (strOf "<") cs = [f, vs] := by simp [splitn2Sub, hsp]
    simp [parse_single_condition, h0, parse_ops_loop, operatorsList, h1, h2, h3, h4, h5, hc,
      hsplit, opOfStr_lt]
  · intro h1 h2
    unfold typeValueLiteral
    rw [if_pos (And.intro h1 h2)]
  · intro hnq hp
    unfold typeValueLiteral
    rw [if_neg hnq, hp]
    rfl
  · intro hnq hp
    unfold typeValueLiteral
    rw [if_neg hnq]
    rcases hp with hp | hp | hp <;> rw [hp] <;> rfl
  · intro hnq hp hv
    subst hv
    unfold typeValueLiteral
    rw [if_neg hnq, hp]
    simp
  · intro hnq hp hv
    subst hv
    unfold typeValueLiteral
    rw [if_neg hnq, hp]
    simp [strOf]
  · intro hnq hp _ _ hv
    subst hv
    unfold typeValueLiteral
    rw [if_neg hnq, hp]
    simp [strOf]
  · intro hnq hp hv1 hv2 hv3
    unfold typeValueLiteral
    rw [if_neg hnq, hp]
    rw [if_neg (by rintro (h | h) <;> [exact hv1 h; exact hv2 h]), if_neg hv3]

/-- Counterexample for C4 as stated: the literals `inf` and `1e999` both
parse as 64-bit floats (`str::parse::<f64>` accepts `inf` directly and
saturates the overflowing decimal to infinity), yet the typed value is
`null`, not a number, because `serde_json::json!` maps non-finite floats
to `Value::Null`. -/
theorem parse_condition_inf_counterexample :
    parse_single_condition (strOf "a>inf") =
      .ok ⟨strOf "a", QueryOperator.greaterThan, Json.null⟩ ∧
    parseF64 (strOf "inf") = some (F64.infinite false) ∧
    parse_single_condition (strOf "a>1e999") =
      .ok ⟨strOf "a", QueryOperator.greaterThan, Json.null⟩ ∧
    parseF64 (strOf "1e999") = some (F64.infinite false) ∧
    Json.null.isNum = false :=
  ⟨rfl, rfl, rfl, rfl, rfl⟩

/-- Witness for C4: `age>=18` hits the `>=` branch (not `>` or `=`) and
types `18` as a number. -/
theorem parse_single_condition_order_witness :
    containsSub (strOf "contains") (strOf "age>=18") = false ∧
    splitFirstSub (strOf ">=") (strOf "age>=18") = some (strOf "age", strOf "18") ∧
    parse_single_condition (strOf "age>=18") =
      .ok ⟨strOf "age", QueryOperator.greaterThanOrEqual, Json.num 18⟩ := by
  refine ⟨rfl, rfl, ?_⟩
  have h := (parse_single_condition_order_and_typing (strOf "age>=18") (strOf "age")
    (strOf "18") 18).2.2.1 rfl rfl
  rw [h]
  rfl

/-- `user_manager.rs::UserRole`. -/
inductive UserRole : Type where
  | admin : UserRole
  | user : UserRole
deriving DecidableEq

/-- `UserRole::to_string`. -/
def roleToStr : UserRole → Str
  | .admin => strOf "admin"
  | .user => strOf "user"

/-- `user_manager.rs::User`.  `created_at` comes from the external clock
(`chrono::Utc::now`); the claims never inspect it, so the model threads it
as an opaque string. -/
structure User : Type where
  username : Str
  password_hash : Str
  role : UserRole
  created_at : Str
deriving DecidableEq

/-- `UserManager`'s shared state: the user directory and the
authenticated-connection table `connection_id -> username`.  The CLI-only
`current_user` field is not part of the TCP session claims. -/
structure UMState : Type where
  users : List (Str × User)
  authenticated_connections : List (Str × Str)
deriving DecidableEq

/-- `user_manager.rs::hash_password`, modelled from std's `DefaultHasher`:
a fixed deterministic non-cryptographic hash of the password; only its
determinism is relied upon, so the model tags the password. -/
def hash_password (password : Str) : Str := 'h' :: password

/-- `user_manager.rs::verify_password`. -/
def verify_password (password hash : Str) : Bool := hash_password password = hash

/-- `user_manager.rs::create_user` (the TCP claims only need its effect on
the user table). -/
def create_user (st : UMState) (username password : Str) (role : UserRole) :
    Except Str UMState :=
  if (lookupA st.users username).isSome then .error (strOf "User already exists")
  else
    .ok { st with
          users := insertA st.users username ⟨username, hash_password password, role, []⟩ }

/-- `user_manager.rs::ensure_default_admin`: when the user table is empty,
create the bootstrap account `admin`/`admin123` (ignoring the result). -/
def ensure_default_admin (st : UMState) : UMState :=
  if st.users.isEmpty then
    match create_user st (strOf "admin") (strOf "admin123") UserRole.admin with
    | .ok st' => st'
    | .error _ => st
  else st

/-- `user_manager.rs::authenticate_connection`: unknown user or
non-matching password hash return an error; only a success inserts the
`connection_id -> username` binding. -/
def authenticate_connection (st : UMState) (connection_id username password : Str) :
    Except Str Unit × UMState :=
  match lookupA st.users username with
  | some u =>
    if verify_password password u.password_hash then
      (.ok (), { st with
                 authenticated_connections :=
                   insertA st.authenticated_connections connection_id username })
    else (.error (strOf "Invalid credentials"), st)
  | none => (.error (strOf "User not found"), st)

/-- `user_manager.rs::logout_connection`. -/
def logout_connection (st : UMState) (connection_id : Str) : UMState :=
  { st with authenticated_connections := eraseA st.authenticated_connections connection_id }

/-- `user_manager.rs::is_connection_authenticated`. -/
def is_connection_authenticated (st : UMState) (connection_id : Str) : Bool :=
  (lookupA st.authenticated_connections connection_id).isSome

/-- `user_manager.rs::get_connection_user`. -/
def get_connection_user (st : UMState) (connection_id : Str) : Option User :=
  (lookupA st.authenticated_connections connection_id).bind (fun u => lookupA st.users u)

/-- `user_manager.rs::cleanup_connection` (delegates to
`logout_connection`). -/
def cleanup_connection (st : UMState) (connection_id : Str) : UMState :=
  logout_connection st connection_id

def SUCCESS_OK : Str := strOf "OK\n"

def SUCCESS_NULL : Str := strOf "NULL\n"

def SUCCESS_GOODBYE : Str := strOf "Goodbye!\n"

def ERROR_EMPTY_COMMAND : Str := strOf "ERROR: Empty command\n"

def ERROR_SET_ARGS : Str := strOf "ERROR: SET requires 3 arguments: SET <table> <key> <value>\n"

def ERROR_GET_ARGS : Str := strOf "ERROR: GET requires 2 arguments: GET <table> <key>\n"

def ERROR_UPDATE_ARGS : Str :=
  strOf "ERROR: UPDATE requires 3 arguments: UPDATE <table> <key> <value>\n"

def ERROR_DELETE_ARGS : Str := strOf "ERROR: DELETE requires 2 arguments: DELETE <table> <key>\n"

def ERROR_QUERY_ARGS : Str :=
  strOf "ERROR: QUERY requires at least 2 arguments: QUERY <table> <conditions...>\n"

def ERROR_INVALID_JSON : Str := strOf "ERROR: Invalid JSON value\n"

def ERROR_LOGIN_ARGS : Str :=
  strOf "ERROR: LOGIN requires 2 arguments: LOGIN <username> <password>\n"

def AUTH_REQUIRED : Str :=
  strOf "Authentication required. Please use: LOGIN <username> <password>\n"

def LOGIN_SUCCESS : Str := strOf "Login successful\n"

def LOGOUT_SUCCESS : Str := strOf "Logged out\n"

def QUERY_NO_RESULTS : Str := strOf "No results found\n"

def ERROR_INVALID_CREDENTIALS : Str := strOf "ERROR: Invalid username or password\n"

def ERROR_NOT_AUTHENTICATED : Str := strOf "ERROR: Not authenticated. Please login first\n"

def natToStr (n : Nat) : Str := (toString n).data

def unknown_command (cmd : Str) : Str :=
  strOf "ERROR: Unknown command '" ++ cmd ++ strOf "'. Type HELP for available commands.\n"

def query_error (err : Str) : Str := strOf "ERROR: " ++ err ++ strOf "\n"

def query_results_header (count : Nat) : Str :=
  strOf "Found " ++ natToStr count ++ strOf " results:\n"

def query_result_item (key value : Str) : Str :=
  key ++ strOf ": " ++ value ++ strOf "\n"

def user_whoami_response (username role : Str) : Str :=
  strOf "Logged in as: " ++ username ++ strOf " (role: " ++ role ++ strOf ")\n"

def NO_USER_LOGGED_IN : Str := strOf "No user currently logged in\n"

/-- `Messages::TCP_HELP_TEXT` (static usage text). -/
def TCP_HELP_TEXT : Str :=
  strOf "Available commands:\nLOGIN <username> <password> - Authenticate to access database\nSET <table> <key> <json_value> - Insert or update a record (requires login)\nGET <table> <key> - Retrieve a record (requires login)\nUPDATE <table> <key> <json_value> - Update a record (requires login)\nDELETE <table> <key> - Delete a record (requires login)\nQUERY <table> <field>=<value> [<field2>><value2>...] - Query records (requires login)\nLOGOUT - Log out from current session\nWHOAMI - Show current logged in user\nHELP - Show this help message\n\nNote: You must login before using database commands.\nDefault admin user: username='admin', password='admin123'\n\nQuery operators: = != > < >= <= contains\nExamples:\n  LOGIN admin admin123\n  QUERY users name=\"John\"\n  QUERY products price>100\n"

/-- `engine.rs::add_row` on the engine state: the WAL append then the
index update, in program order. -/
def add_row (s : EngineState) (table key : Str) (values : Json) : EngineState :=
  run_steps (mutation_steps (.add table key values)) s

/-- `engine.rs::update_row`. -/
def update_row (s : EngineState) (table key : Str) (values : Json) : EngineState :=
  run_steps (mutation_steps (.update table key values)) s

/-- `engine.rs::remove_row`. -/
def remove_row (s : EngineState) (table key : Str) : EngineState :=
  run_steps (mutation_steps (.remove table key)) s

/-- One engine invocation issued by the session layer (used to state that
a command performs no engine call at all). -/
inductive EngineCall : Type where
  | addRowCall : Str → Str → Json → EngineCall
  | getRowCall : Str → Str → EngineCall
  | updateRowCall : Str → Str → Json → EngineCall
  | removeRowCall : Str → Str → EngineCall
  | queryRowsCall : Str → List QueryCondition → EngineCall

/-- The server's shared state: the user manager and the engine. -/
structure ServerState : Type where
  um : UMState
  engine : EngineState

def joinSpace (ls : List Str) : Str := (List.intersperse (strOf " ") ls).flatten

/-- `connection.rs::parse_command`: trim and `splitn(4, ' ')`, dispatch on
the lowercased verb.  The returned triple is the response text, the new
server state, and the list of engine calls the command performed (empty
exactly when the engine was never invoked). -/
def parse_command (st : ServerState) (command : Str) (connection_id : Str) :
    Str × ServerState × List EngineCall :=
  let parts := splitnChar 4 ' ' (trimStr command)
  if parts.isEmpty then (ERROR_EMPTY_COMMAND, st, [])
  else
    let cmd := lowerStr (parts.getD 0 [])
    if cmd = strOf "login" then
      if parts.length ≠ 3 then (ERROR_LOGIN_ARGS, st, [])
      else
        match authenticate_connection st.um connection_id (parts.getD 1 []) (parts.getD 2 []) with
        | (.ok _, um') => (LOGIN_SUCCESS, { st with um := um' }, [])
        | (.error _, um') => (ERROR_INVALID_CREDENTIALS, { st with um := um' }, [])
    else if cmd = strOf "logout" then
      (LOGOUT_SUCCESS, { st with um := logout_connection st.um connection_id }, [])
    else if cmd = strOf "whoami" then
      (match get_connection_user st.um connection_id with
       | some u => user_whoami_response u.username (roleToStr u.role)
       | none => NO_USER_LOGGED_IN, st, [])
    else if cmd = strOf "set" then
      if ¬ is_connection_authenticated st.um connection_id then
        (ERROR_NOT_AUTHENTICATED, st, [])
      else if parts.length ≠ 4 then (ERROR_SET_ARGS, st, [])
      else
        let table := parts.getD 1 []
        let key := parts.getD 2 []
        let json_value := parts.getD 3 []
        match jsonParse json_value with
        | some value =>
          (SUCCESS_OK, { st with engine := add_row st.engine table key value },
            [.addRowCall table key value])
        | none => (ERROR_INVALID_JSON, st, [])
    else if cmd = strOf "get" then
      if ¬ is_connection_authenticated st.um connection_id then
        (ERROR_NOT_AUTHENTICATED, st, [])
      else if parts.length ≠ 3 then (ERROR_GET_ARGS, st, [])
      else
        let table := parts.getD 1 []
        let key := parts.getD 2 []
        match get_row st.engine.index table key with
        | some value => (jsonToString value ++ strOf "\n", st, [.getRowCall table key])
        | none => (SUCCESS_NULL, st, [.getRowCall table key])
    else if cmd = strOf "update" then
      if ¬ is_connection_authenticated st.um connection_id then
        (ERROR_NOT_AUTHENTICATED, st, [])
      else if parts.length ≠ 4 then (ERROR_UPDATE_ARGS, st, [])
      else
        let table := parts.getD 1 []
        let key := parts.getD 2 []
        let json_value := parts.getD 3 []
        match jsonParse json_value with
        | some value =>
          (SUCCESS_OK, { st with engine := update_row st.engine table key value },
            [.updateRowCall table key value])
        | none => (ERROR_INVALID_JSON, st, [])
    else if cmd = strOf "delete" then
      if ¬ is_connection_authenticated st.um connection_id then
        (ERROR_NOT_AUTHENTICATED, st, [])
      else if parts.length ≠ 3 then (ERROR_DELETE_ARGS, st, [])
      else
        let table := parts.getD 1 []
        let key := parts.getD 2 []
        (SUCCESS_OK, { st with engine := remove_row st.engine table key },
          [.removeRowCall table key])
    else if cmd = strOf "query" then
      if ¬ is_connection_authenticated st.um connection_id then
        (ERROR_NOT_AUTHENTICATED, st, [])
      else if parts.length < 3 then (ERROR_QUERY_ARGS, st, [])
      else
        let table := parts.getD 1 []
        let conditions_str := joinSpace (parts.drop 2)
        match parse_single_condition conditions_str with
        | .error err => (query_error err, st, [])
        | .ok cond =>
          let results := query_rows st.engine.index table [cond]
          if results.isEmpty then (QUERY_NO_RESULTS, st, [.queryRowsCall table [cond]])
          else
            (query_results_header results.length ++
              (results.map (fun p => query_result_item p.1 (jsonToString p.2))).flatten,
             st, [.queryRowsCall table [cond]])
    else if cmd = strOf "help" then (TCP_HELP_TEXT, st, [])
    else (unknown_command cmd, st, [])

/-- One iteration's worth of socket activity seen by
`handle_connection`'s read loop: end of stream, a read error, or a read
of `data` whose response write succeeds (`true`) or fails (`false`). -/
inductive ConnEvent : Type where
  | eofEv : ConnEvent
  | readErrEv : ConnEvent
  | recvEv : Str → Bool → ConnEvent

/-- The read loop of `connection.rs::handle_connection`: EOF and read
errors clean up the connection entry and stop; an `exit` command cleans
up, writes the goodbye and stops; any other command is dispatched through
`parse_command`, and — as in the source — a failed response write breaks
out of the loop **without** running `cleanup_connection`.  Returns the
final state and the responses successfully written. -/
def handle_loop : ServerState → Str → List ConnEvent → ServerState × List Str
  | st, _, [] => (st, [])
  | st, connection_id, ev :: rest =>
    match ev with
    | .eofEv => ({ st with um := cleanup_connection st.um connection_id }, [])
    | .readErrEv => ({ st with um := cleanup_connection st.um connection_id }, [])
    | .recvEv data writeOk =>
      let command := trimStr data
      if command.isEmpty then handle_loop st connection_id rest
      else if lowerStr command = strOf "exit" then
        ({ st with um := cleanup_connection st.um connection_id }, [SUCCESS_GOODBYE])
      else
        let r := parse_command st command connection_id
        if writeOk then
          let cont := handle_loop r.2.1 connection_id rest
          (cont.1, r.1 :: cont.2)
        else (r.2.1, [])

/-- `connection.rs::handle_connection`: send the welcome banner (a failed
welcome write returns immediately), then run the read loop. -/
def handle_connection (st : ServerState) (connection_id : Str) (welcomeOk : Bool)
    (events : List ConnEvent) : ServerState × List Str :=
  if welcomeOk then
    let r := handle_loop st connection_id events
    (r.1, AUTH_REQUIRED :: r.2)
  else (st, [])

/-- The accept loop of `main.rs` (lines 130–133): each accepted
connection is handled **inline** — `handle_connection(socket).await`
completes before the next `accept` — so the trace of written responses,
tagged with the index of the connection that produced them, is the
concatenation of whole per-connection sessions in accept order. -/
def accept_loop_go : ServerState → Nat → List (Str × Bool × List ConnEvent) →
    List (Nat × Str)
  | _, _, [] => []
  | st, i, (cid, wOk, evs) :: rest =>
    let r := handle_connection st cid wOk evs
    r.2.map (fun resp => (i, resp)) ++ accept_loop_go r.1 (i + 1) rest

/-- The tagged response trace of the accept loop over a list of incoming
connections. -/
def accept_loop_trace (st : ServerState) (conns : List (Str × Bool × List ConnEvent)) :
    List (Nat × Str) :=
  accept_loop_go st 0 conns

/-- C5: on an authenticated session, a SET or UPDATE whose final argument
does not parse as JSON returns the invalid-JSON error, leaves the server
state (WAL and index included) unchanged, and performs no engine call. -/
theorem invalid_json_no_mutation (st : ServerState) (cid cmd w t k j : Str)
    (hauth : is_connection_authenticated st.um cid = true)
    (hparts : splitnChar 4 ' ' (trimStr cmd) = [w, t, k, j])
    (hw : lowerStr w = strOf "set" ∨ lowerStr w = strOf "update")
    (hj : jsonParse j = none) :
    parse_command st cmd cid = (ERROR_INVALID_JSON, st, []) := by
  rcases hw with hw | hw <;> simp +decide [parse_command, hparts, hw, hauth, hj]

/-- Witness for C5: after logging in as the bootstrap admin,
`set t k notjson` yields the invalid-JSON error with the state unchanged
and no engine call. -/
theorem invalid_json_no_mutation_witness :
    is_connection_authenticated
      (parse_command ⟨ensure_default_admin ⟨[], []⟩, ⟨[], []⟩⟩
        (strOf "login admin admin123") (strOf "c1")).2.1.um (strOf "c1") = true ∧
    splitnChar 4 ' ' (trimStr (strOf "set t k notjson")) =
      [strOf "set", strOf "t", strOf "k", strOf "notjson"] ∧
    jsonParse (strOf "notjson") = none ∧
    parse_command (parse_command ⟨ensure_default_admin ⟨[], []⟩, ⟨[], []⟩⟩
        (strOf "login admin admin123") (strOf "c1")).2.1 (strOf "set t k notjson")
      (strOf "c1") =
      (ERROR_INVALID_JSON,
        (parse_command ⟨ensure_default_admin ⟨[], []⟩, ⟨[], []⟩⟩
          (strOf "login admin admin123") (strOf "c1")).2.1, []) := by
  refine ⟨rfl, rfl, rfl, ?_⟩
  exact invalid_json_no_mutation _ _ _ _ _ _ _ rfl rfl (Or.inl rfl) rfl

/-- C6: an unauthenticated session issuing any of SET/GET/UPDATE/DELETE/
QUERY receives the not-authenticated error, with the state unchanged and
no engine call; and on a fresh server with the bootstrap admin account,
`login admin admin123` succeeds after which `get t k` succeeds (the null
sentinel, via a `get_row` engine call). -/
theorem auth_gating (st : ServerState) (cid cmd w : Str) (restParts : List Str)
    (hunauth : is_connection_authenticated st.um cid = false)
    (hparts : splitnChar 4 ' ' (trimStr cmd) = w :: restParts)
    (hw : lowerStr w = strOf "set" ∨ lowerStr w = strOf "get" ∨
      lowerStr w = strOf "update" ∨ lowerStr w = strOf "delete" ∨
      lowerStr w = strOf "query") :
    parse_command st cmd cid = (ERROR_NOT_AUTHENTICATED, st, []) ∧
    (parse_command ⟨ensure_default_admin ⟨[], []⟩, ⟨[], []⟩⟩
      (strOf "login admin admin123") (strOf "c1")).1 = LOGIN_SUCCESS ∧
    parse_command (parse_command ⟨ensure_default_admin ⟨[], []⟩, ⟨[], []⟩⟩
        (strOf "login admin admin123") (strOf "c1")).2.1 (strOf "get t k") (strOf "c1") =
      (SUCCESS_NULL,
        (parse_command ⟨ensure_default_admin ⟨[], []⟩, ⟨[], []⟩⟩
          (strOf "login admin admin123") (strOf "c1")).2.1,
        [EngineCall.getRowCall (strOf "t") (strOf "k")]) := by
  refine ⟨?_, rfl, rfl⟩
  rcases hw with hw | hw | hw | hw | hw <;>
    simp +decide [parse_command, hparts, hw, hunauth]

/-- Witness for C6: a fresh (unauthenticated) session issuing `get t k`
gets the not-authenticated error with no engine call. -/
theorem auth_gating_witness :
    is_connection_authenticated (ensure_default_admin ⟨[], []⟩) (strOf "c1") = false ∧
    splitnChar 4 ' ' (trimStr (strOf "get t k")) = strOf "get" :: [strOf "t", strOf "k"] ∧
    parse_command ⟨ensure_default_admin ⟨[], []⟩, ⟨[], []⟩⟩ (strOf "get t k") (strOf "c1") =
      (ERROR_NOT_AUTHENTICATED, ⟨ensure_default_admin ⟨[], []⟩, ⟨[], []⟩⟩, []) := by
  refine ⟨rfl, rfl, ?_⟩
  exact (auth_gating ⟨ensure_default_admin ⟨[], []⟩, ⟨[], []⟩⟩ (strOf "c1") (strOf "get t k")
    (strOf "get") [strOf "t", strOf "k"] rfl rfl (Or.inr (Or.inl rfl))).1

/-- C10: a failed `authenticate_connection` (unknown user or wrong
password) leaves the whole user-manager state — the
authenticated-connections map included — unchanged. -/
theorem failed_login_preserves_auth_map (um : UMState) (cid username password e : Str)
    (h : (authenticate_connection um cid username password).1 = .error e) :
    (authenticate_connection um cid username password).2 = um := by
  cases hu : lookupA um.users username with
  | none => simp [authenticate_connection, hu]
  | some u =>
    by_cases hv : verify_password password u.password_hash = true
    · exfalso
      simp [authenticate_connection, hu, hv] at h
    · simp [authenticate_connection, hu, hv]

/-- Witness for C10: an unknown user fails to log in and the state is
unchanged. -/
theorem failed_login_preserves_auth_map_witness :
    (authenticate_connection (ensure_default_admin ⟨[], []⟩) (strOf "c1") (strOf "nobody")
      (strOf "pw")).1 = .error (strOf "User not found") ∧
    (authenticate_connection (ensure_default_admin ⟨[], []⟩) (strOf "c1") (strOf "nobody")
      (strOf "pw")).2 = ensure_default_admin ⟨[], []⟩ := by
  refine ⟨rfl, ?_⟩
  exact failed_login_preserves_auth_map _ _ _ _ _ rfl

/-- C8 (code bug): when the write of a response fails, the read loop
breaks without running `cleanup_connection`, so a session that had just
authenticated stays in the authenticated-connections table; the EOF exit
path, by contrast, does clean up. -/
theorem write_error_leaks_auth_binding :
    is_connection_authenticated
      (handle_connection ⟨ensure_default_admin ⟨[], []⟩, ⟨[], []⟩⟩ (strOf "c1") true
        [ConnEvent.recvEv (strOf "login admin admin123") false]).1.um (strOf "c1") = true ∧
    is_connection_authenticated
      (handle_connection ⟨ensure_default_admin ⟨[], []⟩, ⟨[], []⟩⟩ (strOf "c1") true
        [ConnEvent.recvEv (strOf "login admin admin123") true, ConnEvent.eofEv]).1.um
      (strOf "c1") = false :=
  ⟨rfl, rfl⟩

/-- C9 (code bug): the accept loop awaits each connection handler inline,
so the whole output of the first session — its banner and responses —
precedes the second connection's welcome banner in the trace; nothing is
dispatched to an independent task. -/
theorem accept_loop_handles_inline :
    accept_loop_trace ⟨ensure_default_admin ⟨[], []⟩, ⟨[], []⟩⟩
      [(strOf "c1", true, [ConnEvent.recvEv (strOf "help") true]),
       (strOf "c2", true, [])] =
      [(0, AUTH_REQUIRED), (0, TCP_HELP_TEXT), (1, AUTH_REQUIRED)] :=
  rfl
